import Mathlib

/-!
Verification of the Dragonfly decision core.

This file gives a shallow embedding of the core of the `dragonfly` repository
(`src/dragonfly/core/types.py`, `src/dragonfly/core/synth.py` and the agents of
`src/dragonfly/core/nodes.py` that the claims touch) and proves the claims
about it.

Modelling conventions, applied uniformly:
* Python `float` scores are modelled as exact rationals (`ℚ`); all score
  arithmetic in the source is a handful of additions and multiplications by
  the literal weights, performed identically here.
* `uuid.UUID` identities are modelled as `Nat`.  Fields populated by
  `uuid4()` / `datetime.now()` default factories (`id`, `created_at`) are
  nondeterministic metadata: `created_at` timestamps are omitted, and the
  fresh `id` of an Assessment constructed inside an agent is modelled as `0`
  (no claim, and no scoring or filtering function, reads those ids).
* The `Literal[...]`-typed string fields are modelled as `String`
  (resp. `Option String`), matching the dynamic behaviour of Python: the lookup
  tables in `synth.py` use `.get` with a documented default for unknown
  values, which only a string model can exhibit.
* Python `raise ValueError(msg)` is modelled with `Except String`.
* The stable Python `list.sort` / `sorted` is modelled by `List.mergeSort`,
  which carries the same stability guarantee.
-/

/-- `uuid.UUID`, modelled as a natural number. -/
abbrev UUID := Nat

/-- `types.Observation` (`types.py`): content, source, reliability, id.
The `timestamp` metadata field is omitted (nondeterministic, unread by core logic). -/
structure Observation where
  content : String
  source : String
  reliability : String
  id : UUID
deriving DecidableEq

/-- `types.ActionSpec` (`types.py`). -/
structure ActionSpec where
  name : String
  description : String
  reversibility : String
  id : UUID
  time_sensitivity : Option String
deriving DecidableEq

/-- `types.Situation` (`types.py`).  The pass-through `context` mapping and the
`created_at` timestamp are omitted: no core function reads them. -/
structure Situation where
  tenant_id : String
  goal : String
  time_horizon : String
  stakes : String
  observations : List Observation
  candidate_actions : List ActionSpec
  id : UUID
deriving DecidableEq

/-- `types.Assessment` (`types.py`), minus the `created_at` timestamp. -/
structure Assessment where
  situation_id : UUID
  agent_type : String
  claim : String
  support : List UUID
  confidence : String
  severity : String
  reversibility : String
  is_hard_constraint : Bool
  id : UUID
  action_id : Option UUID
  recommended_tests : List String
deriving DecidableEq

/-- `types.MonitoringTrigger` (`types.py`). -/
structure MonitoringTrigger where
  condition : String
  action_on_trigger : String
deriving DecidableEq

/-- `types.Decision` (`types.py`), minus the `id`/`created_at` metadata. -/
structure Decision where
  situation_id : UUID
  tenant_id : String
  selected_action : ActionSpec
  alternatives_considered : List ActionSpec
  robustness_basis : String
  assessments_used : List UUID
  monitoring : List MonitoringTrigger
deriving DecidableEq

/-- `synth.REVERSIBILITY_SCORES` (`synth.py`), together with the `.get(_, 0.5)`
default used at both of its call sites. -/
def REVERSIBILITY_SCORES (reversibility : String) : ℚ :=
  match reversibility with
  | "reversible" => 1.0
  | "costly" => 0.5
  | "irreversible" => 0.0
  | _ => 0.5

/-- `synth.SEVERITY_WEIGHTS` (`synth.py`), together with the `.get(_, 0.2)`
default used at its call site. -/
def SEVERITY_WEIGHTS (severity : String) : ℚ :=
  match severity with
  | "low" => 0.1
  | "medium" => 0.2
  | "high" => 0.3
  | _ => 0.2

/-- `synth.filter_by_constraints` (`synth.py`).  The Python set comprehension
`{a.action_id for a in assessments if a.is_hard_constraint and a.action_id is not None}`
is modelled as a list of the same ids; only membership in it is ever used. -/
def filter_by_constraints (actions : List ActionSpec) (assessments : List Assessment) :
    List ActionSpec :=
  let violated_action_ids : List UUID :=
    assessments.filterMap fun a => if a.is_hard_constraint then a.action_id else none
  actions.filter fun action => decide (action.id ∉ violated_action_ids)

/-- `synth.score_robustness` (`synth.py`). -/
def score_robustness (action : ActionSpec) (assessments : List Assessment) : ℚ :=
  let rev_score := REVERSIBILITY_SCORES action.reversibility
  let action_warnings := assessments.filter fun a =>
    decide (a.action_id = some action.id ∧ a.is_hard_constraint = false)
  let warning_penalty := (action_warnings.map fun w => SEVERITY_WEIGHTS w.severity).sum
  let constraint_score := max 0.0 (1.0 - warning_penalty)
  0.6 * rev_score + 0.4 * constraint_score

/-- The sort key `lambda x: (-x[1], actions.index(x[0]))` of
`synth.select_action` (`synth.py`): negated score, then first position of the
action in the input list (Python `list.index` under dataclass equality). -/
def selectKey (actions : List ActionSpec) (x : ActionSpec × ℚ) : ℚ × Nat :=
  (-x.2, actions.findIdx fun b => decide (b = x.1))

/-- The lexicographic tuple order on `selectKey` values under which the Python
`scored.sort(key=...)` arranges the scored pairs. -/
def selectLE (actions : List ActionSpec) (x y : ActionSpec × ℚ) : Bool :=
  decide ((selectKey actions x).1 < (selectKey actions y).1 ∨
    ((selectKey actions x).1 = (selectKey actions y).1 ∧
      (selectKey actions x).2 ≤ (selectKey actions y).2))

/-- `synth.select_action` (`synth.py`).  The in-place
`scored.sort(key=lambda x: (-x[1], actions.index(x[0])))` followed by
`scored[0][0]` is modelled by a stable merge sort under the lexicographic
order `selectLE` of the same key, followed by `head?` (the unreachable
`none` branch repeats the empty-list error). -/
def select_action (actions : List ActionSpec) (assessments : List Assessment) :
    Except String ActionSpec :=
  if actions.isEmpty then
    .error "Cannot select from empty action list"
  else
    let scored := actions.map fun action => (action, score_robustness action assessments)
    match (scored.mergeSort (selectLE actions)).head? with
    | some best => .ok best.1
    | none => .error "Cannot select from empty action list"

/-- `synth.generate_monitoring` (`synth.py`), as the same accumulate-by-append
loop over the assessments. -/
def generate_monitoring (assessments : List Assessment) : List MonitoringTrigger :=
  assessments.foldl
    (fun triggers assessment =>
      if assessment.is_hard_constraint = false ∧ assessment.severity = "high" then
        triggers ++ [{ condition := "Monitor: " ++ assessment.claim,
                       action_on_trigger := "alert" }]
      else
        triggers)
    []

/-- `synth._find_most_reversible` (`synth.py`; the leading underscore is
dropped from the Lean name).  The Python `sorted(actions, key=..., reverse=True)`
is a stable descending sort: equal keys keep their original relative order,
which is what `mergeSort` under the flipped comparison computes. -/
def find_most_reversible (actions : List ActionSpec) : Except String ActionSpec :=
  if actions.isEmpty then
    .error "Cannot find most reversible from empty list"
  else
    let sorted_actions := actions.mergeSort fun a b =>
      decide (REVERSIBILITY_SCORES b.reversibility ≤ REVERSIBILITY_SCORES a.reversibility)
    match sorted_actions.head? with
    | some a => .ok a
    | none => .error "Cannot find most reversible from empty list"

/-- Exact-rational model of the Python format specifier `f"{score:.2f}"` used
in the robustness_basis string of `synthesize`: round to two decimal places, ties
to even (the IEEE-754 rounding that Python float formatting applies), and print
with exactly two fractional digits.  No claim inspects this string. -/
def formatScore2 (q : ℚ) : String :=
  let scaled := q * 100
  let fl : ℤ := ⌊scaled⌋
  let frac : ℚ := scaled - fl
  let n : ℤ :=
    if frac > 1 / 2 then fl + 1
    else if frac < 1 / 2 then fl
    else if fl % 2 = 0 then fl else fl + 1
  let whole : ℤ := n / 100
  let rest : Nat := (n % 100).natAbs
  toString whole ++ "." ++ (if rest < 10 then "0" else "") ++ toString rest

/-- `synth.synthesize` (`synth.py`).  The Python truthiness test
`if surviving_actions:` selects between the two branches; exceptions raised
by `select_action` / `_find_most_reversible` propagate. -/
def synthesize (situation : Situation) (assessments : List Assessment) :
    Except String Decision :=
  let surviving_actions := filter_by_constraints situation.candidate_actions assessments
  let monitoring := generate_monitoring assessments
  let assessments_used := assessments.map fun a => a.id
  if surviving_actions.isEmpty then
    match find_most_reversible situation.candidate_actions with
    | .error e => .error e
    | .ok selected_action =>
      let alternatives := situation.candidate_actions.filter fun a =>
        decide (a.id ≠ selected_action.id)
      .ok { situation_id := situation.id
            tenant_id := situation.tenant_id
            selected_action := selected_action
            alternatives_considered := alternatives
            robustness_basis :=
              "No action passed all hard constraints. Selected \x27" ++
              selected_action.name ++ "\x27 as most reversible fallback option."
            assessments_used := assessments_used
            monitoring := monitoring }
  else
    match select_action surviving_actions assessments with
    | .error e => .error e
    | .ok selected_action =>
      let score := score_robustness selected_action assessments
      let alternatives := situation.candidate_actions.filter fun a =>
        decide (a.id ≠ selected_action.id)
      .ok { situation_id := situation.id
            tenant_id := situation.tenant_id
            selected_action := selected_action
            alternatives_considered := alternatives
            robustness_basis :=
              "Passed all hard constraints. Selected \x27" ++ selected_action.name ++
              "\x27 with robustness score " ++ formatScore2 score ++ ". Action is " ++
              selected_action.reversibility ++ "."
            assessments_used := assessments_used
            monitoring := monitoring }

/-- The Python substring test `pat in s`, on the character lists. -/
def containsSubstr (s pat : String) : Bool :=
  decide (pat.toList <:+: s.toList)

/-- `nodes.DEADLINE_KEYWORDS` (`nodes.py`).  The Python `frozenset` is
modelled as a list; only an existential scan over it is ever performed. -/
def DEADLINE_KEYWORDS : List String :=
  ["deadline", "due", "by friday", "by monday", "by tuesday", "by wednesday",
   "by thursday", "end of", "must complete", "time limit", "urgent",
   "asap", "immediately", "today", "tomorrow", "this week"]

/-- `nodes.INCREASE_KEYWORDS` (`nodes.py`). -/
def INCREASE_KEYWORDS : List String :=
  ["increase", "grow", "rise", "up", "higher", "more", "expand", "gain"]

/-- `nodes.DECREASE_KEYWORDS` (`nodes.py`). -/
def DECREASE_KEYWORDS : List String :=
  ["decrease", "drop", "fall", "down", "lower", "less", "shrink", "decline"]

/-- `nodes.ConstraintAgent._has_deadline_indicator` (`nodes.py`): some
lower-cased content of some observation contains some deadline keyword. -/
def ConstraintAgent.has_deadline_indicator (situation : Situation) : Bool :=
  situation.observations.any fun obs =>
    DEADLINE_KEYWORDS.any fun keyword => containsSubstr obs.content.toLower keyword

/-- The hard-constraint Assessment `ConstraintAgent.assess` emits for a
deadline-bearing situation and a flexible action (`nodes.py`). -/
def ConstraintAgent.deadlineHard (situation : Situation) (action : ActionSpec) : Assessment :=
  { situation_id := situation.id
    agent_type := "constraint"
    claim := "Action \x27" ++ action.name ++ "\x27 may miss deadline due to flexible timing"
    support := situation.observations.map fun obs => obs.id
    confidence := "high"
    severity := "high"
    reversibility := "irreversible"
    is_hard_constraint := true
    id := 0
    action_id := some action.id
    recommended_tests := [] }

/-- The non-hard warning `ConstraintAgent.assess` emits for an irreversible
action in a high-stakes situation (`nodes.py`). -/
def ConstraintAgent.irreversibleHighWarn (situation : Situation) (action : ActionSpec) :
    Assessment :=
  { situation_id := situation.id
    agent_type := "constraint"
    claim := "Irreversible action \x27" ++ action.name ++ "\x27 in high-stakes situation"
    support := []
    confidence := "high"
    severity := "high"
    reversibility := "irreversible"
    is_hard_constraint := false
    id := 0
    action_id := some action.id
    recommended_tests := [] }

/-- The non-hard warning `ConstraintAgent.assess` emits for an irreversible
action in a medium-stakes situation (`nodes.py`). -/
def ConstraintAgent.irreversibleMediumWarn (situation : Situation) (action : ActionSpec) :
    Assessment :=
  { situation_id := situation.id
    agent_type := "constraint"
    claim := "Irreversible action \x27" ++ action.name ++ "\x27 limits future options"
    support := []
    confidence := "medium"
    severity := "medium"
    reversibility := "irreversible"
    is_hard_constraint := false
    id := 0
    action_id := some action.id
    recommended_tests := [] }

/-- `nodes.ConstraintAgent.assess` (`nodes.py`): per candidate action, in
loop order, first the optional deadline hard constraint, then the
irreversible-action warning (`if` high stakes / `elif` medium stakes). -/
def ConstraintAgent.assess (situation : Situation) : List Assessment :=
  let has_deadline := ConstraintAgent.has_deadline_indicator situation
  situation.candidate_actions.flatMap fun action =>
    (if has_deadline = true ∧ action.time_sensitivity = some "flexible" then
       [ConstraintAgent.deadlineHard situation action]
     else []) ++
    (if action.reversibility = "irreversible" ∧ situation.stakes = "high" then
       [ConstraintAgent.irreversibleHighWarn situation action]
     else if action.reversibility = "irreversible" ∧ situation.stakes = "medium" then
       [ConstraintAgent.irreversibleMediumWarn situation action]
     else [])

/-- `nodes.RealityCheckAgent._detect_conflicts` (`nodes.py`): classify each
observation as increase-leaning or decrease-leaning by keyword scan, then
return the (increase, decrease) cross product in nested-loop order. -/
def RealityCheckAgent.detect_conflicts (observations : List Observation) :
    List (Observation × Observation) :=
  let increase_obs := observations.filter fun obs =>
    (INCREASE_KEYWORDS.any fun kw => containsSubstr obs.content.toLower kw) &&
    !(DECREASE_KEYWORDS.any fun kw => containsSubstr obs.content.toLower kw)
  let decrease_obs := observations.filter fun obs =>
    (DECREASE_KEYWORDS.any fun kw => containsSubstr obs.content.toLower kw) &&
    !(INCREASE_KEYWORDS.any fun kw => containsSubstr obs.content.toLower kw)
  increase_obs.flatMap fun inc_obs => decrease_obs.map fun dec_obs => (inc_obs, dec_obs)

/-- `nodes.RealityCheckAgent.assess` (`nodes.py`): the three checks append
into one list in source order — low-reliability observations under
high/medium stakes, conflicting observation pairs, missing observations. -/
def RealityCheckAgent.assess (situation : Situation) : List Assessment :=
  let low_reliability := situation.observations.filterMap fun obs =>
    if obs.reliability = "low" ∧ (situation.stakes = "high" ∨ situation.stakes = "medium") then
      some { situation_id := situation.id
             agent_type := "reality_check"
             claim := "Low reliability source \x27" ++ obs.source ++ "\x27 informing " ++
               situation.stakes ++ "-stakes decision"
             support := [obs.id]
             confidence := "high"
             severity := if situation.stakes = "high" then "high" else "medium"
             reversibility := "reversible"
             is_hard_constraint := false
             id := 0
             action_id := none
             recommended_tests := ["Verify information from " ++ obs.source] }
    else none
  let conflicts := (RealityCheckAgent.detect_conflicts situation.observations).map fun p =>
    { situation_id := situation.id
      agent_type := "reality_check"
      claim := "Conflicting observations: \x27" ++ p.1.source ++ "\x27 vs \x27" ++
        p.2.source ++ "\x27"
      support := [p.1.id, p.2.id]
      confidence := "high"
      severity := "medium"
      reversibility := "reversible"
      is_hard_constraint := false
      id := 0
      action_id := none
      recommended_tests := ["Gather additional data to resolve conflict"] }
  let missing :=
    if situation.observations = [] ∧ situation.candidate_actions ≠ [] then
      [{ situation_id := situation.id
         agent_type := "reality_check"
         claim := "No observations available to inform decision"
         support := []
         confidence := "high"
         severity := "medium"
         reversibility := "reversible"
         is_hard_constraint := false
         id := 0
         action_id := none
         recommended_tests := ["Gather relevant observations before deciding"] }]
    else []
  low_reliability ++ conflicts ++ missing

/-- The head of a stable merge sort under a transitive total comparator is an
element taken from the first position at which no earlier element compares
strictly below it: it is below every list element, and strictly below every
element at an earlier position. -/
theorem head_mergeSort_spec {α : Type} {le : α → α → Bool}
    (htrans : ∀ a b c, le a b → le b c → le a c)
    (htotal : ∀ a b, le a b || le b a)
    {l : List α} {x : α}
    (hx : (l.mergeSort le).head? = some x) :
    ∃ (i : Nat) (hi : i < l.length), l[i] = x ∧ (∀ y ∈ l, le x y) ∧
      ∀ (j : Nat) (hj : j < l.length), j < i → le x l[j] ∧ ¬ le l[j] x := by
  classical
  have hmap : (List.mergeSort l.enum (List.enumLE le)).map (fun p => p.2) = l.mergeSort le :=
    List.mergeSort_enum
  rw [← hmap, List.head?_map, Option.map_eq_some'] at hx
  obtain ⟨p, hp, hpx⟩ := hx
  set S := List.mergeSort l.enum (List.enumLE le) with hS
  have hsorted : S.Pairwise fun a b => List.enumLE le a b :=
    List.sorted_mergeSort (List.enumLE_trans htrans) (List.enumLE_total htotal) l.enum
  have hperm : S.Perm l.enum := List.mergeSort_perm l.enum (List.enumLE le)
  -- the head is `enumLE`-below every element of the enumeration
  have hrefl : List.enumLE le p p = true := by
    have h1 : le p.2 p.2 = true := by
      have := htotal p.2 p.2
      simpa using this
    simp [List.enumLE, h1]
  have hmin : ∀ z ∈ l.enum, List.enumLE le p z = true := by
    intro z hz
    have hz' : z ∈ S := hperm.mem_iff.mpr hz
    cases hhead : S with
    | nil => rw [hhead] at hp; simp at hp
    | cons q t =>
      rw [hhead] at hp
      simp only [List.head?_cons, Option.some.injEq] at hp
      subst hp
      rw [hhead] at hz' hsorted
      rcases List.mem_cons.mp hz' with h | h
      · subst h; exact hrefl
      · exact (List.pairwise_cons.mp hsorted).1 z h
  have hpmem : p ∈ l.enum := by
    have : p ∈ S := by
      cases hhead : S with
      | nil => rw [hhead] at hp; simp at hp
      | cons q t =>
        rw [hhead] at hp
        simp only [List.head?_cons, Option.some.injEq] at hp
        subst hp; exact List.mem_cons_self _ _
    exact hperm.mem_iff.mp this
  have hpget : l[p.1]? = some p.2 := by
    have := List.mk_mem_enum_iff_getElem?.mp (by simpa using hpmem)
    exact this
  rw [List.getElem?_eq_some_iff] at hpget
  obtain ⟨hlen, hget⟩ := hpget
  refine ⟨p.1, hlen, by rw [hget, hpx], ?_, ?_⟩
  · intro y hy
    obtain ⟨j, hj, hjy⟩ := List.mem_iff_getElem.mp hy
    have hz : (j, y) ∈ l.enum := List.mk_mem_enum_iff_getElem?.mpr
      (by rw [List.getElem?_eq_getElem hj, hjy])
    have := hmin (j, y) hz
    simp only [List.enumLE] at this
    by_cases hxy : le p.2 y
    · rw [hpx] at hxy; exact hxy
    · simp [hxy] at this
  · intro j hj hji
    have hz : (j, l[j]) ∈ l.enum := List.mk_mem_enum_iff_getElem?.mpr (by simp)
    have hle := hmin (j, l[j]) hz
    simp only [List.enumLE] at hle
    by_cases h1 : le p.2 l[j]
    · constructor
      · rw [← hpx]; exact h1
      · intro h2
        rw [← hpx] at h2
        rw [if_pos h1, if_pos h2] at hle
        have : p.1 ≤ j := by simpa using hle
        omega
    · rw [if_neg h1] at hle
      simp at hle

/-- `find_most_reversible` on a non-empty list succeeds and returns the
element at the first position attaining the maximal reversibility score. -/
theorem find_most_reversible_ok (actions : List ActionSpec) (h : actions ≠ []) :
    ∃ (i : Nat) (hi : i < actions.length),
      find_most_reversible actions = .ok actions[i] ∧
      (∀ a ∈ actions, REVERSIBILITY_SCORES a.reversibility ≤
        REVERSIBILITY_SCORES actions[i].reversibility) ∧
      ∀ (j : Nat) (hj : j < actions.length), j < i →
        REVERSIBILITY_SCORES actions[j].reversibility <
          REVERSIBILITY_SCORES actions[i].reversibility := by
  classical
  have hne : actions.isEmpty = false := by
    cases actions with
    | nil => exact absurd rfl h
    | cons a t => rfl
  set le : ActionSpec → ActionSpec → Bool := fun a b =>
    decide (REVERSIBILITY_SCORES b.reversibility ≤ REVERSIBILITY_SCORES a.reversibility)
    with hle
  have htrans : ∀ a b c, le a b → le b c → le a c := by
    intro a b c hab hbc
    simp only [hle, decide_eq_true_eq] at *
    exact le_trans hbc hab
  have htotal : ∀ a b, le a b || le b a := by
    intro a b
    simp only [hle, Bool.or_eq_true, decide_eq_true_eq]
    exact le_total _ _
  have hsne : actions.mergeSort le ≠ [] := by
    intro hcon
    have h0 := congrArg List.length hcon
    simp only [List.length_mergeSort, List.length_nil] at h0
    exact h (List.length_eq_zero.mp h0)
  obtain ⟨x, hx⟩ : ∃ x, (actions.mergeSort le).head? = some x := by
    cases hm : actions.mergeSort le with
    | nil => exact absurd hm hsne
    | cons a t => exact ⟨a, rfl⟩
  obtain ⟨i, hi, hix, hall, hbefore⟩ := head_mergeSort_spec htrans htotal hx
  have hgoal : find_most_reversible actions = Except.ok x := by
    simp only [find_most_reversible, hne, Bool.false_eq_true, if_false, ← hle, hx]
  refine ⟨i, hi, by rw [hgoal, hix], ?_, ?_⟩
  · intro a ha
    have h1 := hall a ha
    simp only [hle, decide_eq_true_eq] at h1
    rw [hix]
    exact h1
  · intro j hj hji
    obtain ⟨h1, h2⟩ := hbefore j hj hji
    simp only [hle, decide_eq_true_eq] at h2
    rw [hix]
    exact lt_of_not_le h2

/-- `select_action` on a non-empty list succeeds and returns the element at
the first position attaining the maximal robustness score. -/
theorem select_action_ok (actions : List ActionSpec) (assessments : List Assessment)
    (h : actions ≠ []) :
    ∃ (i : Nat) (hi : i < actions.length),
      select_action actions assessments = .ok actions[i] ∧
      (∀ a ∈ actions, score_robustness a assessments ≤
        score_robustness actions[i] assessments) ∧
      ∀ (j : Nat) (hj : j < actions.length), j < i →
        score_robustness actions[j] assessments <
          score_robustness actions[i] assessments := by
  classical
  have hne : actions.isEmpty = false := by
    cases actions with
    | nil => exact absurd rfl h
    | cons a t => rfl
  set scored := actions.map fun action => (action, score_robustness action assessments)
    with hscored
  have htrans : ∀ x y z, selectLE actions x y → selectLE actions y z → selectLE actions x z := by
    intro x y z hxy hyz
    simp only [selectLE, decide_eq_true_eq] at *
    rcases hxy with h1 | ⟨h1, h2⟩ <;> rcases hyz with h3 | ⟨h3, h4⟩
    · exact Or.inl (lt_trans h1 h3)
    · exact Or.inl (lt_of_lt_of_eq h1 h3)
    · exact Or.inl (lt_of_eq_of_lt h1 h3)
    · exact Or.inr ⟨h1.trans h3, le_trans h2 h4⟩
  have htotal : ∀ x y, selectLE actions x y || selectLE actions y x := by
    intro x y
    simp only [selectLE, Bool.or_eq_true, decide_eq_true_eq]
    rcases lt_trichotomy (selectKey actions x).1 (selectKey actions y).1 with h1 | h1 | h1
    · exact Or.inl (Or.inl h1)
    · rcases Nat.le_total (selectKey actions x).2 (selectKey actions y).2 with h2 | h2
      · exact Or.inl (Or.inr ⟨h1, h2⟩)
      · exact Or.inr (Or.inr ⟨h1.symm, h2⟩)
    · exact Or.inr (Or.inl h1)
  have hslen : scored.length = actions.length := List.length_map _ _
  have hsne : scored.mergeSort (selectLE actions) ≠ [] := by
    intro hcon
    have h0 := congrArg List.length hcon
    simp only [List.length_mergeSort, List.length_nil, hslen] at h0
    exact h (List.length_eq_zero.mp h0)
  obtain ⟨best, hx⟩ : ∃ x, (scored.mergeSort (selectLE actions)).head? = some x := by
    cases hm : scored.mergeSort (selectLE actions) with
    | nil => exact absurd hm hsne
    | cons a t => exact ⟨a, rfl⟩
  obtain ⟨i, hi', hib, hall, hbefore⟩ := head_mergeSort_spec htrans htotal hx
  have hi : i < actions.length := hslen ▸ hi'
  have hsi : scored[i] = (actions[i], score_robustness actions[i] assessments) := by
    simp [hscored]
  have hbest : best = (actions[i], score_robustness actions[i] assessments) := by
    rw [← hib, hsi]
  have hgoal : select_action actions assessments = Except.ok actions[i] := by
    simp only [select_action, hne, Bool.false_eq_true, if_false, ← hscored, hx, hbest]
  -- part (A): the selected action has maximal score
  have hA : ∀ a ∈ actions, score_robustness a assessments ≤
      score_robustness actions[i] assessments := by
    intro a ha
    have hmem : (a, score_robustness a assessments) ∈ scored :=
      List.mem_map_of_mem _ ha
    have h1 := hall _ hmem
    rw [hbest] at h1
    simp only [selectLE, selectKey, decide_eq_true_eq] at h1
    rcases h1 with h1 | ⟨h1, _⟩
    · linarith
    · linarith [neg_injective h1]
  refine ⟨i, hi, hgoal, hA, ?_⟩
  -- part (B): every earlier action scores strictly below the selected one
  intro j hj hji
  by_contra hcon
  push_neg at hcon
  have heq : score_robustness actions[j] assessments =
      score_robustness actions[i] assessments :=
    le_antisymm (hA _ (List.getElem_mem hj)) hcon
  have hj' : j < scored.length := hslen ▸ hj
  have hsj : scored[j] = (actions[j], score_robustness actions[j] assessments) := by
    simp [hscored]
  obtain ⟨h1, h2⟩ := hbefore j hj' hji
  rw [hsj, hbest] at h2
  simp only [selectLE, selectKey, decide_eq_true_eq, not_or, not_and, not_le] at h2
  obtain ⟨h2a, h2b⟩ := h2
  have hkey : -score_robustness actions[j] assessments =
      -score_robustness actions[i] assessments := by rw [heq]
  have hidx := h2b hkey
  -- write `ij`, `ib` for the first positions of the two actions in the list
  set pj : ActionSpec → Bool := fun b => decide (b = actions[j]) with hpj
  set pb : ActionSpec → Bool := fun b => decide (b = actions[i]) with hpb
  have hij_le : actions.findIdx pj ≤ j := by
    by_contra hx2
    push_neg at hx2
    have := List.not_of_lt_findIdx hx2
    simp [hpj] at this
  have hib_le : actions.findIdx pb ≤ i := by
    by_contra hx2
    push_neg at hx2
    have := List.not_of_lt_findIdx hx2
    simp [hpb] at this
  -- so the first position of the selected action is strictly before `i`
  have hib_lt : actions.findIdx pb < i := by omega
  have hib_len : actions.findIdx pb < actions.length := by omega
  have hib_len' : actions.findIdx pb < scored.length := by omega
  have hbval : actions[actions.findIdx pb] = actions[i] := by
    have := @List.findIdx_getElem _ pb actions hib_len
    simpa [hpb] using this
  have hsb : scored[actions.findIdx pb] = best := by
    rw [hbest]
    simp [hscored, hbval]
  obtain ⟨_, hb2⟩ := hbefore (actions.findIdx pb) hib_len' hib_lt
  rw [hsb] at hb2
  apply hb2
  simp [selectLE]

theorem REVERSIBILITY_SCORES_nonneg (s : String) : 0 ≤ REVERSIBILITY_SCORES s := by
  unfold REVERSIBILITY_SCORES
  split <;> norm_num

theorem REVERSIBILITY_SCORES_le_one (s : String) : REVERSIBILITY_SCORES s ≤ 1 := by
  unfold REVERSIBILITY_SCORES
  split <;> norm_num

theorem SEVERITY_WEIGHTS_nonneg (s : String) : 0 ≤ SEVERITY_WEIGHTS s := by
  unfold SEVERITY_WEIGHTS
  split <;> norm_num

/-- The warning penalty summed inside `score_robustness` is nonnegative. -/
theorem warning_penalty_nonneg (action : ActionSpec) (assessments : List Assessment) :
    0 ≤ ((assessments.filter fun a =>
        decide (a.action_id = some action.id ∧ a.is_hard_constraint = false)).map
      fun w => SEVERITY_WEIGHTS w.severity).sum := by
  apply List.sum_nonneg
  intro x hx
  obtain ⟨w, _, rfl⟩ := List.mem_map.mp hx
  exact SEVERITY_WEIGHTS_nonneg _

/-- `filter_by_constraints` is the filter keeping exactly the actions not
referenced by any hard-constraint assessment. -/
theorem filter_by_constraints_eq (actions : List ActionSpec) (assessments : List Assessment) :
    filter_by_constraints actions assessments =
      actions.filter fun action =>
        decide (¬ ∃ w ∈ assessments, w.is_hard_constraint = true ∧
          w.action_id = some action.id) := by
  unfold filter_by_constraints
  apply List.filter_congr
  intro a _
  simp only [decide_eq_decide]
  apply not_congr
  simp only [List.mem_filterMap]
  constructor
  · rintro ⟨w, hw, hf⟩
    by_cases hh : w.is_hard_constraint = true
    · rw [if_pos hh] at hf
      exact ⟨w, hw, hh, hf⟩
    · rw [if_neg hh] at hf
      simp at hf
  · rintro ⟨w, hw, hh, hf⟩
    exact ⟨w, hw, by rw [if_pos hh, hf]⟩

/-- Appending assessments none of which is a hard constraint does not change
the outcome of `filter_by_constraints`. -/
theorem filter_by_constraints_append_nonhard (actions : List ActionSpec)
    (assessments extra : List Assessment)
    (hx : ∀ w ∈ extra, w.is_hard_constraint = false) :
    filter_by_constraints actions (assessments ++ extra) =
      filter_by_constraints actions assessments := by
  unfold filter_by_constraints
  rw [List.filterMap_append]
  have hnil : extra.filterMap
      (fun w => if w.is_hard_constraint then w.action_id else none) = [] := by
    rw [List.filterMap_eq_nil_iff]
    intro w hw
    simp [hx w hw]
  rw [hnil, List.append_nil]

/-- Appending assessments none of which is a non-hard warning for `action`
does not change that action's robustness score. -/
theorem score_robustness_append_other (action : ActionSpec)
    (assessments extra : List Assessment)
    (hx : ∀ w ∈ extra, ¬ (w.action_id = some action.id ∧ w.is_hard_constraint = false)) :
    score_robustness action (assessments ++ extra) =
      score_robustness action assessments := by
  unfold score_robustness
  rw [List.filter_append]
  have hnil : extra.filter (fun a =>
      decide (a.action_id = some action.id ∧ a.is_hard_constraint = false)) = [] := by
    rw [List.filter_eq_nil_iff]
    intro w hw
    simpa using hx w hw
  rw [hnil, List.append_nil]

/-- Permutation of the assessment list does not change a robustness score. -/
theorem score_robustness_perm (action : ActionSpec) {as₁ as₂ : List Assessment}
    (hp : as₁.Perm as₂) :
    score_robustness action as₁ = score_robustness action as₂ := by
  simp only [score_robustness]
  have hsum : ((as₁.filter fun a =>
        decide (a.action_id = some action.id ∧ a.is_hard_constraint = false)).map
      fun w => SEVERITY_WEIGHTS w.severity).sum =
      ((as₂.filter fun a =>
        decide (a.action_id = some action.id ∧ a.is_hard_constraint = false)).map
      fun w => SEVERITY_WEIGHTS w.severity).sum :=
    ((hp.filter _).map _).sum_eq
  rw [hsum]

/-- Permutation of the assessment list does not change which actions survive
hard-constraint filtering. -/
theorem filter_by_constraints_perm (actions : List ActionSpec) {as₁ as₂ : List Assessment}
    (hp : as₁.Perm as₂) :
    filter_by_constraints actions as₁ = filter_by_constraints actions as₂ := by
  unfold filter_by_constraints
  apply List.filter_congr
  intro a _
  simp only [decide_eq_decide]
  exact not_congr (hp.filterMap fun w =>
    if w.is_hard_constraint then w.action_id else none).mem_iff

/-- Permutation of the assessment list does not change the selected action. -/
theorem select_action_perm (actions : List ActionSpec) {as₁ as₂ : List Assessment}
    (hp : as₁.Perm as₂) :
    select_action actions as₁ = select_action actions as₂ := by
  have hf : (fun action => (action, score_robustness action as₁)) =
      fun action => (action, score_robustness action as₂) :=
    funext fun a => by rw [score_robustness_perm a hp]
  simp only [select_action, hf]

/-- The accumulate-by-append loop of `generate_monitoring` computes the
filter-then-map of the non-hard high-severity assessments. -/
theorem generate_monitoring_eq (assessments : List Assessment) :
    generate_monitoring assessments =
      (assessments.filter fun a =>
          decide (a.is_hard_constraint = false ∧ a.severity = "high")).map
        fun a => { condition := "Monitor: " ++ a.claim, action_on_trigger := "alert" } := by
  have key : ∀ (l : List Assessment) (acc : List MonitoringTrigger),
      l.foldl
        (fun triggers assessment =>
          if assessment.is_hard_constraint = false ∧ assessment.severity = "high" then
            triggers ++ [{ condition := "Monitor: " ++ assessment.claim,
                           action_on_trigger := "alert" }]
          else
            triggers)
        acc =
      acc ++ (l.filter fun a =>
          decide (a.is_hard_constraint = false ∧ a.severity = "high")).map
        fun a => { condition := "Monitor: " ++ a.claim, action_on_trigger := "alert" } := by
    intro l
    induction l with
    | nil => intro acc; simp
    | cons a t ih =>
      intro acc
      simp only [List.foldl_cons, List.filter_cons]
      by_cases hc : a.is_hard_constraint = false ∧ a.severity = "high"
      · rw [if_pos hc, ih]
        simp [hc]
      · rw [if_neg hc, ih]
        simp [hc]
  unfold generate_monitoring
  rw [key]
  rfl

/-- The Decision `synthesize` produces on the surviving-actions branch. -/
theorem synthesize_ok_of_surviving (situation : Situation) (assessments : List Assessment)
    (sel : ActionSpec)
    (hsne : (filter_by_constraints situation.candidate_actions assessments).isEmpty = false)
    (hsel : select_action (filter_by_constraints situation.candidate_actions assessments)
      assessments = .ok sel) :
    synthesize situation assessments = .ok
      { situation_id := situation.id
        tenant_id := situation.tenant_id
        selected_action := sel
        alternatives_considered := situation.candidate_actions.filter fun a =>
          decide (a.id ≠ sel.id)
        robustness_basis :=
          "Passed all hard constraints. Selected \x27" ++ sel.name ++
          "\x27 with robustness score " ++
          formatScore2 (score_robustness sel assessments) ++ ". Action is " ++
          sel.reversibility ++ "."
        assessments_used := assessments.map fun a => a.id
        monitoring := generate_monitoring assessments } := by
  simp only [synthesize, hsne, Bool.false_eq_true, if_false, hsel]

/-- The Decision `synthesize` produces on the fallback branch. -/
theorem synthesize_ok_of_fallback (situation : Situation) (assessments : List Assessment)
    (sel : ActionSpec)
    (hse : (filter_by_constraints situation.candidate_actions assessments).isEmpty = true)
    (hsel : find_most_reversible situation.candidate_actions = .ok sel) :
    synthesize situation assessments = .ok
      { situation_id := situation.id
        tenant_id := situation.tenant_id
        selected_action := sel
        alternatives_considered := situation.candidate_actions.filter fun a =>
          decide (a.id ≠ sel.id)
        robustness_basis :=
          "No action passed all hard constraints. Selected \x27" ++ sel.name ++
          "\x27 as most reversible fallback option."
        assessments_used := assessments.map fun a => a.id
        monitoring := generate_monitoring assessments } := by
  simp only [synthesize, hse, if_true, hsel]

/-! Concrete fixtures used by the witnesses below. -/

def wAct1 : ActionSpec :=
  { name := "archive", description := "archive the data", reversibility := "reversible",
    id := 1, time_sensitivity := some "flexible" }

def wAct2 : ActionSpec :=
  { name := "delete", description := "delete the data", reversibility := "irreversible",
    id := 2, time_sensitivity := none }

def wAct3 : ActionSpec :=
  { name := "defer", description := "defer the decision", reversibility := "reversible",
    id := 3, time_sensitivity := none }

def wObs1 : Observation :=
  { content := "Deadline is Friday", source := "ops", reliability := "low", id := 100 }

def wSituation : Situation :=
  { tenant_id := "tenant-1", goal := "decide storage policy", time_horizon := "near",
    stakes := "high", observations := [wObs1],
    candidate_actions := [wAct1, wAct2, wAct3], id := 50 }

def wEmptySituation : Situation :=
  { tenant_id := "tenant-1", goal := "decide storage policy", time_horizon := "near",
    stakes := "low", observations := [], candidate_actions := [], id := 51 }

def wWarn : Assessment :=
  { situation_id := 50, agent_type := "stability", claim := "delete is irreversible",
    support := [], confidence := "high", severity := "high",
    reversibility := "irreversible", is_hard_constraint := false, id := 7,
    action_id := some 2, recommended_tests := [] }

def wHard1 : Assessment :=
  { situation_id := 50, agent_type := "constraint", claim := "archive may miss deadline",
    support := [100], confidence := "high", severity := "high",
    reversibility := "irreversible", is_hard_constraint := true, id := 8,
    action_id := some 1, recommended_tests := [] }

def wHard2 : Assessment :=
  { wHard1 with claim := "delete may miss deadline", id := 9, action_id := some 2 }

def wHard3 : Assessment :=
  { wHard1 with claim := "defer may miss deadline", id := 10, action_id := some 3 }

/-- C1: for every non-empty action list and every assessment list,
`select_action` succeeds and returns the action at the first position whose
robustness score (per `score_robustness` over that assessment list) is
maximal: the selection beats or ties every action and strictly beats every
earlier-listed one.  Determinism of repeated calls is the first conjunct
(and is automatic: the embedding is a pure function, as is the source,
which mutates only its local `scored` list). -/
theorem C1_select_action_max_and_earliest (actions : List ActionSpec)
    (assessments : List Assessment) (h : actions ≠ []) :
    (∀ r₁ r₂ : Except String ActionSpec,
      select_action actions assessments = r₁ → select_action actions assessments = r₂ →
        r₁ = r₂) ∧
    ∃ (i : Nat) (hi : i < actions.length),
      select_action actions assessments = .ok actions[i] ∧
      (∀ a ∈ actions, score_robustness a assessments ≤
        score_robustness actions[i] assessments) ∧
      ∀ (j : Nat) (hj : j < actions.length), j < i →
        score_robustness actions[j] assessments <
          score_robustness actions[i] assessments :=
  ⟨fun _ _ h₁ h₂ => h₁.symm.trans h₂, select_action_ok actions assessments h⟩

theorem C1_select_action_max_and_earliest_witness :
    ([wAct1, wAct2, wAct3] ≠ ([] : List ActionSpec)) ∧
    ((∀ r₁ r₂ : Except String ActionSpec,
      select_action [wAct1, wAct2, wAct3] [wWarn] = r₁ →
        select_action [wAct1, wAct2, wAct3] [wWarn] = r₂ → r₁ = r₂) ∧
    ∃ (i : Nat) (hi : i < [wAct1, wAct2, wAct3].length),
      select_action [wAct1, wAct2, wAct3] [wWarn] = .ok [wAct1, wAct2, wAct3][i] ∧
      (∀ a ∈ [wAct1, wAct2, wAct3], score_robustness a [wWarn] ≤
        score_robustness [wAct1, wAct2, wAct3][i] [wWarn]) ∧
      ∀ (j : Nat) (hj : j < [wAct1, wAct2, wAct3].length), j < i →
        score_robustness [wAct1, wAct2, wAct3][j] [wWarn] <
          score_robustness [wAct1, wAct2, wAct3][i] [wWarn]) :=
  ⟨by simp, C1_select_action_max_and_earliest [wAct1, wAct2, wAct3] [wWarn] (by simp)⟩

/-- C2: `filter_by_constraints` keeps exactly the actions whose id is not the
`action_id` of any hard-constraint assessment, in their original order: it
equals the order-preserving `List.filter` of that predicate. -/
theorem C2_filter_by_constraints_exact (actions : List ActionSpec)
    (assessments : List Assessment) :
    filter_by_constraints actions assessments =
      actions.filter fun action =>
        decide (¬ ∃ w ∈ assessments, w.is_hard_constraint = true ∧
          w.action_id = some action.id) :=
  filter_by_constraints_eq actions assessments

/-- C4: with an empty candidate-action list, `synthesize` reaches the
fallback path (nothing survives filtering) and fails there with the
explicit empty-list error rather than returning a Decision; and
`select_action` fails on every empty action list. -/
theorem C4_synthesize_empty_actions_fails (situation : Situation)
    (assessments : List Assessment) (h : situation.candidate_actions = []) :
    synthesize situation assessments = .error "Cannot find most reversible from empty list" ∧
    ∀ ws : List Assessment,
      select_action [] ws = .error "Cannot select from empty action list" := by
  constructor
  · have hsurv : filter_by_constraints situation.candidate_actions assessments = [] := by
      rw [h]
      rfl
    simp only [synthesize, hsurv, h, List.isEmpty_nil, if_true]
    rfl
  · intro ws
    rfl

theorem C4_synthesize_empty_actions_fails_witness :
    wEmptySituation.candidate_actions = [] ∧
    (synthesize wEmptySituation [wWarn] =
        .error "Cannot find most reversible from empty list" ∧
      ∀ ws : List Assessment,
        select_action [] ws = .error "Cannot select from empty action list") :=
  ⟨rfl, C4_synthesize_empty_actions_fails wEmptySituation [wWarn] rfl⟩

/-- C5: `score_robustness` is literally
`0.6 * reversibility_score + 0.4 * max(0, 1 - warning_penalty)` with the
penalty summing severity weights of the non-hard assessments naming the
action, and the result always lies in `[0, 1]`. -/
theorem C5_score_robustness_formula_and_range (action : ActionSpec)
    (assessments : List Assessment) :
    score_robustness action assessments =
      0.6 * REVERSIBILITY_SCORES action.reversibility +
      0.4 * max 0.0 (1.0 -
        ((assessments.filter fun a =>
            decide (a.action_id = some action.id ∧ a.is_hard_constraint = false)).map
          fun w => SEVERITY_WEIGHTS w.severity).sum) ∧
    0 ≤ score_robustness action assessments ∧
    score_robustness action assessments ≤ 1 := by
  have hr0 := REVERSIBILITY_SCORES_nonneg action.reversibility
  have hr1 := REVERSIBILITY_SCORES_le_one action.reversibility
  have hp0 := warning_penalty_nonneg action assessments
  refine ⟨rfl, ?_, ?_⟩
  · simp only [score_robustness]
    set s := ((assessments.filter fun a =>
        decide (a.action_id = some action.id ∧ a.is_hard_constraint = false)).map
      fun w => SEVERITY_WEIGHTS w.severity).sum with hs
    have h1 : (0:ℚ) ≤ max 0.0 (1.0 - s) := le_trans (by norm_num) (le_max_left 0.0 _)
    have h2 : (0:ℚ) ≤ 0.6 * REVERSIBILITY_SCORES action.reversibility :=
      mul_nonneg (by norm_num) hr0
    have h3 : (0:ℚ) ≤ 0.4 * max 0.0 (1.0 - s) := mul_nonneg (by norm_num) h1
    linarith
  · simp only [score_robustness]
    set s := ((assessments.filter fun a =>
        decide (a.action_id = some action.id ∧ a.is_hard_constraint = false)).map
      fun w => SEVERITY_WEIGHTS w.severity).sum with hs
    have h1 : max 0.0 (1.0 - s) ≤ 1 := max_le (by norm_num) (by linarith)
    have h2 : 0.6 * REVERSIBILITY_SCORES action.reversibility ≤ 0.6 * 1 :=
      mul_le_mul_of_nonneg_left hr1 (by norm_num)
    have h3 : 0.4 * max 0.0 (1.0 - s) ≤ 0.4 * 1 :=
      mul_le_mul_of_nonneg_left h1 (by norm_num)
    linarith

/-- C7: `generate_monitoring` emits exactly one trigger, whose
`action_on_trigger` is "alert" and whose condition is derived from the claim
text, for each non-hard high-severity assessment, and none for any other
assessment: it equals the filter-then-map over exactly those assessments. -/
theorem C7_generate_monitoring_exact (assessments : List Assessment) :
    generate_monitoring assessments =
      (assessments.filter fun a =>
          decide (a.is_hard_constraint = false ∧ a.severity = "high")).map
        fun a => { condition := "Monitor: " ++ a.claim, action_on_trigger := "alert" } :=
  generate_monitoring_eq assessments

/-- C9: appending one further non-hard warning naming an action never
increases that action's robustness score. -/
theorem C9_warning_never_increases_score (action : ActionSpec)
    (assessments : List Assessment) (w : Assessment)
    (hh : w.is_hard_constraint = false) (ha : w.action_id = some action.id) :
    score_robustness action (assessments ++ [w]) ≤ score_robustness action assessments := by
  simp only [score_robustness, List.filter_append, List.map_append, List.sum_append]
  have hfw : [w].filter (fun a =>
      decide (a.action_id = some action.id ∧ a.is_hard_constraint = false)) = [w] := by
    simp [ha, hh]
  rw [hfw]
  simp only [List.map_cons, List.map_nil, List.sum_cons, List.sum_nil, add_zero]
  set s := ((assessments.filter fun a =>
      decide (a.action_id = some action.id ∧ a.is_hard_constraint = false)).map
    fun w => SEVERITY_WEIGHTS w.severity).sum with hs
  have hδ : 0 ≤ SEVERITY_WEIGHTS w.severity := SEVERITY_WEIGHTS_nonneg _
  have h1 : max 0.0 (1.0 - (s + SEVERITY_WEIGHTS w.severity)) ≤ max 0.0 (1.0 - s) :=
    max_le_max (le_refl _) (by linarith)
  have h2 : 0.4 * max 0.0 (1.0 - (s + SEVERITY_WEIGHTS w.severity)) ≤
      0.4 * max 0.0 (1.0 - s) := mul_le_mul_of_nonneg_left h1 (by norm_num)
  linarith

theorem C9_warning_never_increases_score_witness :
    wWarn.is_hard_constraint = false ∧ wWarn.action_id = some wAct2.id ∧
    score_robustness wAct2 ([wHard2] ++ [wWarn]) ≤ score_robustness wAct2 [wHard2] :=
  ⟨rfl, rfl, C9_warning_never_increases_score wAct2 [wHard2] wWarn rfl rfl⟩

/-- C3: when every candidate action is named by some hard-constraint
assessment, `synthesize` still succeeds via the fallback: it selects the
action at the first position with the best reversibility score
(`REVERSIBILITY_SCORES`: reversible 1.0, costly 0.5, irreversible 0.0,
anything else 0.5) among all original candidates, and the robustness basis
states that no action passed all hard constraints. -/
theorem C3_synthesize_fallback_most_reversible (situation : Situation)
    (assessments : List Assessment)
    (hne : situation.candidate_actions ≠ [])
    (hall : ∀ a ∈ situation.candidate_actions,
      ∃ w ∈ assessments, w.is_hard_constraint = true ∧ w.action_id = some a.id) :
    ∃ (d : Decision) (i : Nat) (hi : i < situation.candidate_actions.length),
      synthesize situation assessments = .ok d ∧
      d.selected_action = situation.candidate_actions[i] ∧
      (∀ a ∈ situation.candidate_actions,
        REVERSIBILITY_SCORES a.reversibility ≤
          REVERSIBILITY_SCORES d.selected_action.reversibility) ∧
      (∀ (j : Nat) (hj : j < situation.candidate_actions.length), j < i →
        REVERSIBILITY_SCORES situation.candidate_actions[j].reversibility <
          REVERSIBILITY_SCORES d.selected_action.reversibility) ∧
      d.robustness_basis = "No action passed all hard constraints. Selected \x27" ++
        d.selected_action.name ++ "\x27 as most reversible fallback option." := by
  have hsurv : filter_by_constraints situation.candidate_actions assessments = [] := by
    rw [filter_by_constraints_eq, List.filter_eq_nil_iff]
    intro a ha
    simp only [decide_eq_true_eq, not_not]
    exact hall a ha
  obtain ⟨i, hi, hfmr, hmax, hstrict⟩ := find_most_reversible_ok _ hne
  have hsyn := synthesize_ok_of_fallback situation assessments _ (by rw [hsurv]; rfl) hfmr
  exact ⟨_, i, hi, hsyn, rfl, hmax, hstrict, rfl⟩

theorem C3_synthesize_fallback_most_reversible_witness :
    wSituation.candidate_actions ≠ [] ∧
    (∀ a ∈ wSituation.candidate_actions,
      ∃ w ∈ [wHard1, wHard2, wHard3], w.is_hard_constraint = true ∧
        w.action_id = some a.id) ∧
    ∃ (d : Decision) (i : Nat) (hi : i < wSituation.candidate_actions.length),
      synthesize wSituation [wHard1, wHard2, wHard3] = .ok d ∧
      d.selected_action = wSituation.candidate_actions[i] ∧
      (∀ a ∈ wSituation.candidate_actions,
        REVERSIBILITY_SCORES a.reversibility ≤
          REVERSIBILITY_SCORES d.selected_action.reversibility) ∧
      (∀ (j : Nat) (hj : j < wSituation.candidate_actions.length), j < i →
        REVERSIBILITY_SCORES wSituation.candidate_actions[j].reversibility <
          REVERSIBILITY_SCORES d.selected_action.reversibility) ∧
      d.robustness_basis = "No action passed all hard constraints. Selected \x27" ++
        d.selected_action.name ++ "\x27 as most reversible fallback option." :=
  ⟨by simp [wSituation], by decide,
    C3_synthesize_fallback_most_reversible wSituation [wHard1, wHard2, wHard3]
      (by simp [wSituation]) (by decide)⟩

/-- C8: `synthesize` applied to any permutation of the assessment list
yields a Decision with the same selected action and the same surviving
action list as the original order. -/
theorem C8_synthesize_permutation_invariant (situation : Situation)
    (as₁ as₂ : List Assessment) (hne : situation.candidate_actions ≠ [])
    (hp : as₁.Perm as₂) :
    ∃ d₁ d₂ : Decision,
      synthesize situation as₁ = .ok d₁ ∧ synthesize situation as₂ = .ok d₂ ∧
      d₁.selected_action = d₂.selected_action ∧
      filter_by_constraints situation.candidate_actions as₁ =
        filter_by_constraints situation.candidate_actions as₂ := by
  have hfb := filter_by_constraints_perm situation.candidate_actions hp
  by_cases hse : (filter_by_constraints situation.candidate_actions as₁).isEmpty = true
  · obtain ⟨i, hi, hfmr, _, _⟩ := find_most_reversible_ok _ hne
    have h1 := synthesize_ok_of_fallback situation as₁ _ hse hfmr
    have h2 := synthesize_ok_of_fallback situation as₂ _ (by rw [← hfb]; exact hse) hfmr
    exact ⟨_, _, h1, h2, rfl, hfb⟩
  · simp only [Bool.not_eq_true] at hse
    have hnil : filter_by_constraints situation.candidate_actions as₁ ≠ [] := by
      intro hcon
      rw [hcon] at hse
      simp at hse
    obtain ⟨i, hi, hsel1, _, _⟩ := select_action_ok _ as₁ hnil
    have hsel2 : select_action (filter_by_constraints situation.candidate_actions as₂) as₂ =
        .ok (filter_by_constraints situation.candidate_actions as₁)[i] := by
      rw [← hfb, ← select_action_perm _ hp]
      exact hsel1
    have h1 := synthesize_ok_of_surviving situation as₁ _ hse hsel1
    have h2 := synthesize_ok_of_surviving situation as₂ _ (by rw [← hfb]; exact hse) hsel2
    exact ⟨_, _, h1, h2, rfl, hfb⟩

theorem C8_synthesize_permutation_invariant_witness :
    wSituation.candidate_actions ≠ [] ∧ [wHard1, wWarn].Perm [wWarn, wHard1] ∧
    ∃ d₁ d₂ : Decision,
      synthesize wSituation [wHard1, wWarn] = .ok d₁ ∧
      synthesize wSituation [wWarn, wHard1] = .ok d₂ ∧
      d₁.selected_action = d₂.selected_action ∧
      filter_by_constraints wSituation.candidate_actions [wHard1, wWarn] =
        filter_by_constraints wSituation.candidate_actions [wWarn, wHard1] :=
  ⟨by simp [wSituation], List.Perm.swap wWarn wHard1 [],
    C8_synthesize_permutation_invariant wSituation [wHard1, wWarn] [wWarn, wHard1]
      (by simp [wSituation]) (List.Perm.swap wWarn wHard1 [])⟩

/-- The warning branch of `ConstraintAgent.assess` never contributes a hard
constraint. -/
theorem constraint_warn_filter (situation : Situation) (action : ActionSpec) :
    ((if action.reversibility = "irreversible" ∧ situation.stakes = "high" then
        [ConstraintAgent.irreversibleHighWarn situation action]
      else if action.reversibility = "irreversible" ∧ situation.stakes = "medium" then
        [ConstraintAgent.irreversibleMediumWarn situation action]
      else []).filter fun w => w.is_hard_constraint) = [] := by
  split_ifs <;>
    simp [ConstraintAgent.irreversibleHighWarn, ConstraintAgent.irreversibleMediumWarn]

/-- The hard constraints emitted by `ConstraintAgent.assess` are exactly one
`deadlineHard` record per candidate-action entry that is flexible while the
situation is deadline-bearing. -/
theorem constraint_assess_hard_filter (situation : Situation) :
    ((ConstraintAgent.assess situation).filter fun w => w.is_hard_constraint) =
      (situation.candidate_actions.filter fun a =>
        decide (ConstraintAgent.has_deadline_indicator situation = true ∧
          a.time_sensitivity = some "flexible")).map
        fun a => ConstraintAgent.deadlineHard situation a := by
  simp only [ConstraintAgent.assess]
  generalize situation.candidate_actions = acts
  induction acts with
  | nil => rfl
  | cons a t ih =>
    rw [List.flatMap_cons, List.filter_append, ih, List.filter_cons, List.filter_append,
      constraint_warn_filter situation a, List.append_nil]
    by_cases hc : ConstraintAgent.has_deadline_indicator situation = true ∧
        a.time_sensitivity = some "flexible"
    · rw [if_pos hc]
      simp [hc, ConstraintAgent.deadlineHard]
    · rw [if_neg hc]
      simp [hc]

/-- C6: `ConstraintAgent.assess` emits hard-constraint assessments exactly
for the flexible candidate actions of a deadline-bearing situation — one
`deadlineHard` record per such candidate entry, carrying severity "high",
confidence "high" and all observation ids as support — and, under the
Situation invariant that candidate-action ids are unique, a given action is
hard-constrained iff the deadline/flexible test holds for it, and at most
one hard constraint is emitted per action however many observations or
keywords match. -/
theorem C6_constraint_agent_hard_exact (situation : Situation) :
    ((ConstraintAgent.assess situation).filter fun w => w.is_hard_constraint) =
      ((situation.candidate_actions.filter fun a =>
          decide (ConstraintAgent.has_deadline_indicator situation = true ∧
            a.time_sensitivity = some "flexible")).map
        fun a => ConstraintAgent.deadlineHard situation a) ∧
    ((situation.candidate_actions.map fun a => a.id).Nodup →
      ∀ a ∈ situation.candidate_actions,
        ((∃ w ∈ ConstraintAgent.assess situation,
            w.is_hard_constraint = true ∧ w.action_id = some a.id) ↔
          (ConstraintAgent.has_deadline_indicator situation = true ∧
            a.time_sensitivity = some "flexible")) ∧
        ((ConstraintAgent.assess situation).countP fun w =>
          w.is_hard_constraint && w.action_id == some a.id) ≤ 1) := by
  have hchar := constraint_assess_hard_filter situation
  refine ⟨hchar, fun hnd a ha => ⟨⟨?_, ?_⟩, ?_⟩⟩
  · rintro ⟨w, hw, hwh, hwid⟩
    have hwf : w ∈ (ConstraintAgent.assess situation).filter fun w => w.is_hard_constraint :=
      List.mem_filter.mpr ⟨hw, hwh⟩
    rw [hchar] at hwf
    obtain ⟨b, hb, rfl⟩ := List.mem_map.mp hwf
    obtain ⟨hbmem, hbp⟩ := List.mem_filter.mp hb
    simp only [decide_eq_true_eq] at hbp
    have hid : b.id = a.id := Option.some.inj hwid
    have hba : b = a := List.inj_on_of_nodup_map hnd hbmem ha hid
    exact hba ▸ hbp
  · rintro ⟨hd, hflex⟩
    have hap : a ∈ situation.candidate_actions.filter fun a =>
        decide (ConstraintAgent.has_deadline_indicator situation = true ∧
          a.time_sensitivity = some "flexible") :=
      List.mem_filter.mpr ⟨ha, by simp [hd, hflex]⟩
    have hm : ConstraintAgent.deadlineHard situation a ∈
        (ConstraintAgent.assess situation).filter fun w => w.is_hard_constraint := by
      rw [hchar]
      exact List.mem_map_of_mem _ hap
    exact ⟨_, (List.mem_filter.mp hm).1, rfl, rfl⟩
  · have h1 : ((ConstraintAgent.assess situation).countP fun w =>
        w.is_hard_constraint && w.action_id == some a.id) =
        (((ConstraintAgent.assess situation).filter fun w =>
          w.is_hard_constraint).countP fun w => w.action_id == some a.id) := by
      rw [List.countP_filter]
      congr 1
      funext w
      exact Bool.and_comm _ _
    have h2 : (((ConstraintAgent.assess situation).filter fun w =>
        w.is_hard_constraint).countP fun w => w.action_id == some a.id) =
        ((situation.candidate_actions.filter fun b =>
          decide (ConstraintAgent.has_deadline_indicator situation = true ∧
            b.time_sensitivity = some "flexible")).countP fun b => b.id == a.id) := by
      rw [hchar, List.countP_map]
      apply List.countP_congr
      intro b hb
      simp [ConstraintAgent.deadlineHard, Function.comp]
    have h3 : ((situation.candidate_actions.filter fun b =>
        decide (ConstraintAgent.has_deadline_indicator situation = true ∧
          b.time_sensitivity = some "flexible")).countP fun b => b.id == a.id) ≤
        situation.candidate_actions.countP fun b => b.id == a.id :=
      (List.filter_sublist _).countP_le _
    have h4 : (situation.candidate_actions.countP fun b => b.id == a.id) ≤ 1 := by
      have hcount := List.nodup_iff_count_le_one.mp hnd a.id
      simpa [List.count_eq_countP, List.countP_map, Function.comp] using hcount
    omega

theorem C6_constraint_agent_hard_exact_witness :
    (((ConstraintAgent.assess wSituation).filter fun w => w.is_hard_constraint) =
      ((wSituation.candidate_actions.filter fun a =>
          decide (ConstraintAgent.has_deadline_indicator wSituation = true ∧
            a.time_sensitivity = some "flexible")).map
        fun a => ConstraintAgent.deadlineHard wSituation a) ∧
    ((wSituation.candidate_actions.map fun a => a.id).Nodup →
      ∀ a ∈ wSituation.candidate_actions,
        ((∃ w ∈ ConstraintAgent.assess wSituation,
            w.is_hard_constraint = true ∧ w.action_id = some a.id) ↔
          (ConstraintAgent.has_deadline_indicator wSituation = true ∧
            a.time_sensitivity = some "flexible")) ∧
        ((ConstraintAgent.assess wSituation).countP fun w =>
          w.is_hard_constraint && w.action_id == some a.id) ≤ 1)) ∧
    (wSituation.candidate_actions.map fun a => a.id).Nodup :=
  ⟨C6_constraint_agent_hard_exact wSituation, by decide⟩

/-- C10: every assessment emitted by `RealityCheckAgent.assess` is
situation-level (`action_id = none`) and non-hard; consequently appending
its output to any assessment list changes neither which actions survive
`filter_by_constraints` nor any action's `score_robustness` — the
reality-check evaluator can only influence monitoring triggers. -/
theorem C10_reality_check_cannot_affect_selection :
    ∀ situation : Situation,
      (∀ w ∈ RealityCheckAgent.assess situation,
        w.action_id = none ∧ w.is_hard_constraint = false) ∧
      ∀ (actions : List ActionSpec) (assessments : List Assessment) (a : ActionSpec),
        filter_by_constraints actions (assessments ++ RealityCheckAgent.assess situation) =
          filter_by_constraints actions assessments ∧
        score_robustness a (assessments ++ RealityCheckAgent.assess situation) =
          score_robustness a assessments := by
  intro situation
  have hfields : ∀ w ∈ RealityCheckAgent.assess situation,
      w.action_id = none ∧ w.is_hard_constraint = false := by
    intro w hw
    simp only [RealityCheckAgent.assess, List.mem_append, List.mem_filterMap,
      List.mem_map] at hw
    rcases hw with (hw | hw) | hw
    · obtain ⟨obs, hobs, hif⟩ := hw
      split_ifs at hif <;>
        · have hrec := Option.some.inj hif
          subst hrec
          exact ⟨rfl, rfl⟩
    · obtain ⟨p, hp, hfw⟩ := hw
      subst hfw
      exact ⟨rfl, rfl⟩
    · split_ifs at hw with hcond
      · simp only [List.mem_singleton] at hw
        subst hw
        exact ⟨rfl, rfl⟩
      · simp at hw
  refine ⟨hfields, fun actions assessments a => ⟨?_, ?_⟩⟩
  · exact filter_by_constraints_append_nonhard _ _ _ fun w hw => (hfields w hw).2
  · apply score_robustness_append_other
    intro w hw hcon
    rw [(hfields w hw).1] at hcon
    exact Option.noConfusion hcon.1
